import Mathlib

/-!
Verification of the metadata utilities in `src/utils.py` of the
dor-hprc-venv-manager repository.

The module is a thin filesystem/JSON glue layer.  We embed it shallowly:

* JSON values (`Json`) model the values produced by the `json` module.
* The ambient world (`State`) holds the `SCRATCH` and `USER` environment
  variables, the token list printed by the external `groups` command, and
  the filesystem, modelled as an association list from path strings to a
  `FileState`.  File contents are modelled at the level of parsed JSON:
  `json.dump` followed by `json.load` of the same standard library is the
  identity on Python values, so a successfully written file holds
  `FileState.valid doc`; unparsable content is `FileState.invalid msg` and
  an unreadable file is `FileState.denied`.
* Python exceptions are modelled by `PyErr`; fallible functions return
  `Except PyErr`.  `load_group_metadata` has a catch-all handler in the
  source and is therefore a total function in the model.
* `os.path.join` (POSIX), `os.path.basename`, the rstrip of trailing slashes and
  `os.path.expandvars` at the concrete call sites are modelled by
  `joinOne`/`osJoin`, `basename`, `rstripSlash` and `userMetadataPath`.
-/

/-- JSON values as handled by the `json` module: strings, integers,
booleans, null, arrays, and objects (association lists in key order,
modelling Python dicts). -/
inductive Json where
  | str (s : String) : Json
  | num (n : Int) : Json
  | bool (b : Bool) : Json
  | null : Json
  | arr (elems : List Json) : Json
  | obj (fields : List (String × Json)) : Json

/-- The Python exceptions the embedded code can raise.  The source raises
plain `Exception`, `ValueError`, `AttributeError` and `TypeError` values,
distinguished only by their class and message. -/
inductive PyErr where
  | exception (msg : String) : PyErr
  | valueError (msg : String) : PyErr
  | attributeError (msg : String) : PyErr
  | typeError (msg : String) : PyErr

/-- What the filesystem holds at a given path: no file, a file the caller
may not read, a file whose content fails JSON parsing (with the parse
error message), or a file holding a parsed JSON document. -/
inductive FileState where
  | missing : FileState
  | denied : FileState
  | invalid (msg : String) : FileState
  | valid (content : Json) : FileState

/-- The ambient world of the module: the `SCRATCH` and `USER` environment
variables (absent = `none`), the whitespace-split output of the external
`groups` command, and the filesystem as path/content pairs (first entry
wins on lookup). -/
structure State where
  scratch : Option String
  user : Option String
  groups : List String
  fs : List (String × FileState)

/-- Lookup in a Python dict modelled as an association list (first
occurrence wins). -/
def alookup (kvs : List (String × Json)) (k : String) : Option Json :=
  (kvs.find? (fun kv => kv.1 == k)).map (fun kv => kv.2)

/-- The content of the filesystem at a path; an absent entry is a missing
file. -/
def fileAt (st : State) (p : String) : FileState :=
  ((st.fs.find? (fun kv => kv.1 == p)).map (fun kv => kv.2)).getD FileState.missing

/-- Python truthiness of a JSON value: empty strings, zero, `False`,
`None`, empty arrays and empty objects are falsy. -/
def Json.truthy : Json → Bool
  | .str s => !(s == "")
  | .num n => !(n == 0)
  | .bool b => b
  | .null => false
  | .arr xs => !xs.isEmpty
  | .obj kvs => !kvs.isEmpty

/-- `value.get(k)` (one-argument dict `.get`, default `None`): succeeds on
a dict, raises `AttributeError` on any other value. -/
def pyGetOpt (j : Json) (k : String) : Except PyErr (Option Json) :=
  match j with
  | .obj kvs => .ok (alookup kvs k)
  | _ => .error (.attributeError "object has no attribute get")

/-- `value.get(k, d)` (two-argument dict `.get`): succeeds on a dict,
raises `AttributeError` on any other value. -/
def pyGetD (j : Json) (k : String) (d : Json) : Except PyErr Json :=
  match j with
  | .obj kvs => .ok ((alookup kvs k).getD d)
  | _ => .error (.attributeError "object has no attribute get")

/-- Python truthiness of a `.get(k)` result (`None` is falsy). -/
def truthyOpt : Option Json → Bool
  | none => false
  | some j => j.truthy

/-- Python iteration over a JSON value: a list yields its elements, a
string its characters (as one-character strings), a dict its keys; other
values raise `TypeError`. -/
def Json.iter : Json → Except PyErr (List Json)
  | .arr xs => .ok xs
  | .str s => .ok (s.data.map (fun c => Json.str (String.mk [c])))
  | .obj kvs => .ok (kvs.map (fun kv => Json.str kv.1))
  | _ => .error (.typeError "object is not iterable")

/-- Whether a string starts with the path separator. -/
def startsWithSlash (s : String) : Bool := s.data.head? == some '/'

/-- Whether a string ends with the path separator. -/
def endsWithSlash (s : String) : Bool := s.data.getLast? == some '/'

/-- One step of POSIX `os.path.join`: an absolute component restarts the
path; otherwise the component is appended, inserting a separator unless
the accumulated path is empty or already ends in one. -/
def joinOne (a b : String) : String :=
  if startsWithSlash b then b
  else if a == "" || endsWithSlash a then a ++ b
  else a ++ "/" ++ b

/-- `os.path.join(a, parts...)` on POSIX. -/
def osJoin (a : String) (parts : List String) : String := parts.foldl joinOne a

/-- The rstrip of trailing separator characters. -/
def rstripSlash (s : String) : String :=
  String.mk ((s.data.reverse.dropWhile (fun c => c == '/')).reverse)

/-- `os.path.basename(s)`: everything after the last separator. -/
def basename (s : String) : String :=
  String.mk ((s.data.reverse.takeWhile (fun c => !(c == '/'))).reverse)

/-- The path read by `load_user_metadata`:
`os.path.expandvars("/scratch/user/$USER/virtual_envs/metadata.json")`.
When `USER` is unset, `expandvars` leaves the `$USER` text in place. -/
def userMetadataPath (st : State) : String :=
  "/scratch/user/" ++ (st.user.getD "$USER") ++ "/virtual_envs/metadata.json"

/-- The path read by `load_group_metadata`:
`os.path.join("/", "scratch", "group", g, "virtual_envs", "metadata.json")`. -/
def groupMetadataPath (g : String) : String :=
  osJoin "/" ["scratch", "group", g, "virtual_envs", "metadata.json"]

/-- Outcome of `open(p) ; json.load(...)` on the modelled filesystem. -/
inductive FileErr where
  | notFound : FileErr
  | permission : FileErr
  | decodeError (msg : String) : FileErr

/-- The `open` of the path followed by `json.load`, classified by failure mode. -/
def readJson (st : State) (p : String) : Except FileErr Json :=
  match fileAt st p with
  | .missing => .error .notFound
  | .denied => .error .permission
  | .invalid m => .error (.decodeError m)
  | .valid j => .ok j

/-- The empty metadata document returned on the fallback paths. -/
def emptyDoc : Json := .obj [("environments", .arr [])]

/-- Message of the exception `load_user_metadata` raises on a JSON parse
failure. -/
def corruptedUserMsg (m : String) : String :=
  "User metadata file is corrupted or not in JSON format: " ++ m

/-- Message of the exception `load_user_metadata` raises on any other
read failure. -/
def unexpectedUserMsg (m : String) : String :=
  "Unexpected error reading user metadata: " ++ m

/-- The `str()` of the `PermissionError` raised by `open`, as interpolated
into the catch-all message of `load_user_metadata`. -/
def permissionErrorStr : String := "Permission denied"

/-- `get_user` from `src/utils.py`: basename of the rstripped `SCRATCH`
value; when `SCRATCH` is unset, `None.rstrip` raises `AttributeError`. -/
def get_user (st : State) : Except PyErr String :=
  match st.scratch with
  | none => .error (.attributeError "NoneType object has no attribute rstrip")
  | some s => .ok (basename (rstripSlash s))

/-- `get_user_groups` from `src/utils.py`: the whitespace-split output of
the external `groups` command, held in the state. -/
def get_user_groups (st : State) : List String := st.groups

/-- `load_user_metadata` from `src/utils.py`. -/
def load_user_metadata (st : State) : Except PyErr Json :=
  match readJson st (userMetadataPath st) with
  | .ok j => .ok j
  | .error .notFound => .ok emptyDoc
  | .error (.decodeError m) => .error (.exception (corruptedUserMsg m))
  | .error .permission => .error (.exception (unexpectedUserMsg permissionErrorStr))

/-- `load_group_metadata` from `src/utils.py`: every failure mode is
caught and degrades to the empty document, so the function is total. -/
def load_group_metadata (st : State) (group_name : String) : Json :=
  match readJson st (groupMetadataPath group_name) with
  | .ok j => j
  | .error _ => emptyDoc

/-- The merged view built by `load_all_metadata`. -/
structure AllMetadata where
  user : Json
  groups : List (String × Json)

/-- Python dict assignment `d[k] = v`: replace in place if the key is
present, append otherwise (insertion order preserved). -/
def dictInsert (d : List (String × Json)) (k : String) (v : Json) : List (String × Json) :=
  if d.any (fun kv => kv.1 == k) then
    d.map (fun kv => if kv.1 == k then (kv.1, v) else kv)
  else d ++ [(k, v)]

/-- The group loop of `load_all_metadata`: for each group, load its
document and record it when the environments value fetched with `.get` is
truthy; `.get` on a non-dict raises. -/
def buildGroups (st : State) : List String → List (String × Json) →
    Except PyErr (List (String × Json))
  | [], acc => .ok acc
  | g :: rest, acc =>
    match pyGetOpt (load_group_metadata st g) "environments" with
    | .error e => .error e
    | .ok ev =>
      buildGroups st rest
        (if truthyOpt ev then dictInsert acc g (load_group_metadata st g) else acc)

/-- `load_all_metadata` from `src/utils.py`. -/
def load_all_metadata (st : State) : Except PyErr AllMetadata := do
  let u ← load_user_metadata st
  let gd ← buildGroups st (get_user_groups st) []
  .ok ⟨u, gd⟩

/-- Comparison `value == env_name` where `value` is a name-field `.get`
result: only equal strings compare equal; `None` and non-strings do not. -/
def pyEqStrOpt (v : Option Json) (s : String) : Bool :=
  match v with
  | some (.str t) => t == s
  | _ => false

/-- The scan over `envs` returning the first record whose name field equals the target,
used by `find_environment_by_name`. -/
def findInEnvs (n : String) : List Json → Except PyErr (Option Json)
  | [] => .ok none
  | e :: rest => do
    let v ← pyGetOpt e "name"
    if pyEqStrOpt v n then .ok (some e) else findInEnvs n rest

/-- The group half of the search in `find_environment_by_name`, over the
group mapping of the merged view in insertion order. -/
def findInGroupList (n : String) : List (String × Json) →
    Except PyErr (Option (String × String × Json))
  | [] => .ok none
  | (g, gm) :: rest => do
    let envsJ ← pyGetD gm "environments" (.arr [])
    let envs ← envsJ.iter
    match ← findInEnvs n envs with
    | some e => .ok (some ("group", g, e))
    | none => findInGroupList n rest

/-- `find_environment_by_name` from `src/utils.py`.  The Python sentinel
`(None, None, None)` is modelled as `none`, a hit as
`some (source_type, source_name, env)`. -/
def find_environment_by_name (st : State) (env_name : String) :
    Except PyErr (Option (String × String × Json)) := do
  let am ← load_all_metadata st
  let uenvsJ ← pyGetD am.user "environments" (.arr [])
  let uenvs ← uenvsJ.iter
  match ← findInEnvs env_name uenvs with
  | some e => do
    let u ← get_user st
    .ok (some ("user", u, e))
  | none => findInGroupList env_name am.groups

/-- `get_environment_path` from `src/utils.py`.  For a user owner with
`SCRATCH` unset, `os.path.join(None, ...)` raises `TypeError`. -/
def get_environment_path (st : State) (env_name source_type source_name : String) :
    Except PyErr String :=
  if source_type == "user" then
    match st.scratch with
    | none => .error (.typeError "expected str, bytes or os.PathLike object, not NoneType")
    | some scratch => .ok (osJoin scratch ["virtual_envs", env_name])
  else if source_type == "group" then
    .ok (osJoin "/" ["scratch", "group", source_name, "virtual_envs", env_name])
  else
    .error (.valueError ("Invalid source_type: " ++ source_type))

/-- `get_metadata_file_path` from `src/utils.py`. -/
def get_metadata_file_path (st : State) (source_type source_name : String) :
    Except PyErr String :=
  if source_type == "user" then
    match st.scratch with
    | none => .error (.typeError "expected str, bytes or os.PathLike object, not NoneType")
    | some scratch => .ok (osJoin scratch ["virtual_envs", "metadata.json"])
  else if source_type == "group" then
    .ok (osJoin "/" ["scratch", "group", source_name, "virtual_envs", "metadata.json"])
  else
    .error (.valueError ("Invalid source_type: " ++ source_type))

/-- `update_metadata_file` from `src/utils.py`: `json.dump` of the
document at the resolved path (the written file then holds the document). -/
def update_metadata_file (st : State) (metadata : Json) (source_type source_name : String) :
    Except PyErr State := do
  let p ← get_metadata_file_path st source_type source_name
  .ok { st with fs := (p, FileState.valid metadata) :: st.fs }

/-- Replacement of the value at a key of a Python dict (the key is present
at every site where this is reached). -/
def dictSet (kvs : List (String × Json)) (k : String) (v : Json) : List (String × Json) :=
  kvs.map (fun kv => if kv.1 == k then (kv.1, v) else kv)

/-- Mutation of the list stored under a key of a dict, as performed by
the pop on the aliased environments list of the metadata dict. -/
def objSetKey (j : Json) (k : String) (v : Json) : Json :=
  match j with
  | .obj kvs => .obj (dictSet kvs k v)
  | _ => j

/-- The removal scan of `remove_environment_from_metadata`: first record
whose name field equals the target is popped; returns the popped
record and the remaining list. -/
def scanRemove (n : String) : List Json → Except PyErr (Option (Json × List Json))
  | [] => .ok none
  | e :: rest => do
    let v ← pyGetOpt e "name"
    if pyEqStrOpt v n then .ok (some (e, rest))
    else
      match ← scanRemove n rest with
      | some (r, rest2) => .ok (some (r, e :: rest2))
      | none => .ok none

/-- `remove_environment_from_metadata` from `src/utils.py`.  The result
pairs the post-state with the Python 4-tuple
`(success, source_type, source_name, removed_env)`. -/
def remove_environment_from_metadata (st : State) (env_name : String) :
    Except PyErr (State × (Bool × Option String × Option String × Option Json)) := do
  match ← find_environment_by_name st env_name with
  | none => .ok (st, (false, none, none, none))
  | some (source_type, source_name, _) => do
    let metadata ← if source_type == "user" then load_user_metadata st
                   else pure (load_group_metadata st source_name)
    let envsJ ← pyGetD metadata "environments" (.arr [])
    let envs ← envsJ.iter
    match ← scanRemove env_name envs with
    | some (removed, rest) =>
      if removed.truthy then do
        let st2 ← update_metadata_file st (objSetKey metadata "environments" (.arr rest))
                    source_type source_name
        .ok (st2, (true, some source_type, some source_name, some removed))
      else .ok (st, (false, some source_type, some source_name, none))
    | none => .ok (st, (false, some source_type, some source_name, none))

/-- The username as the spec words it: the last path segment of the
`SCRATCH` value after stripping trailing separators. -/
def currentUser (st : State) : String := basename (rstripSlash (st.scratch.getD ""))

/-- The environment records of a schema-shaped document; a missing
`environments` key or a non-document value reads as the empty list. -/
def docEnvs (j : Json) : List Json :=
  match j with
  | .obj kvs =>
    match alookup kvs "environments" with
    | some (.arr xs) => xs
    | _ => []
  | _ => []

/-- Whether a JSON value is a dict. -/
def isObj : Json → Bool
  | .obj _ => true
  | _ => false

/-- Whether a record is a dict whose `name` field equals the target
string. -/
def matchName (n : String) (e : Json) : Bool :=
  match e with
  | .obj kvs => pyEqStrOpt (alookup kvs "name") n
  | _ => false

/-- Schema shape of a loaded document: a dict whose `environments` value,
when the key is present, is a list of dicts.  The key may be absent and
records need not carry a `name` field. -/
def docShape (j : Json) : Bool :=
  match j with
  | .obj kvs =>
    match alookup kvs "environments" with
    | none => true
    | some (.arr xs) => xs.all isObj
    | some _ => false
  | _ => false

/-- The states on which the lookup and removal operations are exercised:
the user document loads (missing file allowed) and every loadable
document is schema-shaped. -/
def schemaOk (st : State) : Bool :=
  (match load_user_metadata st with
   | .ok u => docShape u
   | .error _ => false)
  && st.groups.all (fun g => docShape (load_group_metadata st g))

/-- Reference search over the groups of the merged view, as the spec words it:
groups in mapping order, environments in document order, first match
wins. -/
def firstMatchInGroups (n : String) : List (String × Json) →
    Option (String × String × Json)
  | [] => none
  | (g, d) :: rest =>
    match (docEnvs d).find? (matchName n) with
    | some e => some ("group", g, e)
    | none => firstMatchInGroups n rest

/-- The user document a state loads, defaulting to the empty document. -/
def userDocOf (st : State) : Json :=
  match load_user_metadata st with
  | .ok u => u
  | .error _ => emptyDoc

/-- Reference lookup, following the spec text of
`find_environment_by_name`: search the user document first in document
order, then each group of the merged view in its order; the first match
wins, and the sentinel is returned when the name is absent everywhere. -/
def findSpec (st : State) (n : String) : Option (String × String × Json) :=
  match load_all_metadata st with
  | .error _ => none
  | .ok am =>
    match (docEnvs am.user).find? (matchName n) with
    | some e => some ("user", currentUser st, e)
    | none => firstMatchInGroups n am.groups

/-- Lookup in the group mapping of the merged view. -/
def lookupJ (d : List (String × Json)) (g : String) : Option Json :=
  (d.find? (fun kv => kv.1 == g)).map (fun kv => kv.2)

/-- Whether a record is a dict with no `name` field. -/
def lacksName (e : Json) : Bool :=
  match e with
  | .obj kvs => (alookup kvs "name").isNone
  | _ => false

/-- Whether every record of every loadable document lacks a `name`
field. -/
def recordsLackName (st : State) : Bool :=
  (docEnvs (userDocOf st)).all lacksName
  && st.groups.all (fun g => (docEnvs (load_group_metadata st g)).all lacksName)

/-- A demo record named `envA` owned by the user. -/
def envA : Json := .obj [("name", .str "envA"), ("path", .str "/p/a")]

/-- A demo record named `envB`, present only in group `teamX`. -/
def envB : Json := .obj [("name", .str "envB")]

/-- A demo record named `envC`, first in the `teamX` document. -/
def envC : Json := .obj [("name", .str "envC")]

/-- A demo record whose `name` duplicates `envA` inside group `teamX`. -/
def envDup : Json := .obj [("name", .str "envA"), ("origin", .str "group")]

/-- The demo user document. -/
def udocA : Json := .obj [("environments", .arr [envA])]

/-- The demo `teamX` document. -/
def gdocX : Json := .obj [("environments", .arr [envC, envB, envDup])]

/-- A demo state: consistent `SCRATCH`/`USER` for user `alice`, two
groups, of which `teamY` has an unreadable metadata file. -/
def demoState : State := {
  scratch := some "/scratch/user/alice"
  user := some "alice"
  groups := ["teamX", "teamY"]
  fs := [("/scratch/user/alice/virtual_envs/metadata.json", .valid udocA),
         ("/scratch/group/teamX/virtual_envs/metadata.json", .valid gdocX),
         ("/scratch/group/teamY/virtual_envs/metadata.json", .denied)] }

/-- A demo state exercising the three fallback branches of the group
loader: group `ga` has no file, `gb` an unreadable one, `gc` an
unparsable one. -/
def demoFsState : State := {
  scratch := some "/scratch/user/alice"
  user := some "alice"
  groups := ["ga", "gb", "gc"]
  fs := [("/scratch/group/gb/virtual_envs/metadata.json", .denied),
         ("/scratch/group/gc/virtual_envs/metadata.json", .invalid "boom")] }

/-- A demo state whose user metadata file is missing. -/
def userMissingState : State := {
  scratch := some "/scratch/user/alice"
  user := some "alice"
  groups := []
  fs := [] }

/-- A demo state whose user metadata file fails JSON parsing. -/
def userCorruptState : State := {
  scratch := some "/scratch/user/alice"
  user := some "alice"
  groups := []
  fs := [("/scratch/user/alice/virtual_envs/metadata.json", .invalid "Expecting value")] }

/-- A demo state in which `SCRATCH` is set but empty. -/
def emptyScratchState : State := {
  scratch := some ""
  user := some "alice"
  groups := []
  fs := [] }

/-- A demo state in which `SCRATCH` is unset. -/
def noScratchState : State := {
  scratch := none
  user := some "alice"
  groups := []
  fs := [] }

/-- A demo state with malformed document shapes: the user document lacks
the `environments` key and the single group record lacks a `name` field. -/
def malformedState : State := {
  scratch := some "/scratch/user/alice"
  user := some "alice"
  groups := ["gx"]
  fs := [("/scratch/user/alice/virtual_envs/metadata.json", .valid (.obj [])),
         ("/scratch/group/gx/virtual_envs/metadata.json",
          .valid (.obj [("environments", .arr [.obj [("path", .str "/x")]])]))] }

theorem string_data_ne_nil (s : String) (h : s ≠ "") : s.data ≠ [] := by
  intro hd
  exact h (String.ext (by rw [hd]))

theorem strAppend_ne_empty (p q : String) (h : p ≠ "") : p ++ q ≠ "" := by
  intro hc
  have hd := congrArg String.data hc
  rw [String.data_append] at hd
  rcases List.append_eq_nil.mp hd with ⟨h1, _⟩
  exact string_data_ne_nil p h h1

theorem endsWithSlash_append (p q : String) (h : q ≠ "") :
    endsWithSlash (p ++ q) = endsWithSlash q := by
  unfold endsWithSlash
  rw [String.data_append, List.getLast?_append]
  cases hq : q.data.getLast? with
  | none =>
    exact absurd (List.getLast?_eq_none_iff.mp hq) (string_data_ne_nil q h)
  | some c => simp

theorem joinOne_plain (a b : String) (hb : startsWithSlash b = false)
    (ha1 : a ≠ "") (ha2 : endsWithSlash a = false) :
    joinOne a b = a ++ "/" ++ b := by
  simp [joinOne, hb, ha1, ha2]

theorem corrupted_ne_unexpected (m : String) :
    corruptedUserMsg m ≠ unexpectedUserMsg permissionErrorStr := by
  intro h
  have h2 := congrArg (fun s => s.data.take 2) h
  simp only [corruptedUserMsg, unexpectedUserMsg, permissionErrorStr,
    String.data_append] at h2
  rw [List.take_append_of_le_length (by decide)] at h2
  revert h2
  decide

/-- Claim C2: for every group name, `load_group_metadata` never raises
(in the model it is a total function, mirroring its catch-all handlers)
and returns the empty document when the file is missing, when reading is
denied, and when the content is not valid JSON. -/
theorem spec_C2_group_loader_fallback (st : State) (g : String) :
    (fileAt st (groupMetadataPath g) = FileState.missing →
      load_group_metadata st g = emptyDoc)
    ∧ (fileAt st (groupMetadataPath g) = FileState.denied →
      load_group_metadata st g = emptyDoc)
    ∧ (∀ m, fileAt st (groupMetadataPath g) = FileState.invalid m →
      load_group_metadata st g = emptyDoc) := by
  refine ⟨fun h => ?_, fun h => ?_, fun m h => ?_⟩ <;>
    simp [load_group_metadata, readJson, h]

theorem spec_C2_group_loader_fallback_witness :
    load_group_metadata demoFsState "ga" = emptyDoc
    ∧ load_group_metadata demoFsState "gb" = emptyDoc
    ∧ load_group_metadata demoFsState "gc" = emptyDoc :=
  ⟨(spec_C2_group_loader_fallback demoFsState "ga").1 rfl,
   (spec_C2_group_loader_fallback demoFsState "gb").2.1 rfl,
   (spec_C2_group_loader_fallback demoFsState "gc").2.2 "boom" rfl⟩

/-- Claim C3: `load_user_metadata` returns the empty document when the
file is missing, and raises the corrupted-metadata exception, carrying
the parse error in its message, exactly when the file content is not
valid JSON (an unreadable file raises a different, unexpected-error
exception). -/
theorem spec_C3_user_loader_errors (st : State) :
    (fileAt st (userMetadataPath st) = FileState.missing →
      load_user_metadata st = .ok emptyDoc)
    ∧ (∀ m, fileAt st (userMetadataPath st) = FileState.invalid m →
      load_user_metadata st = .error (.exception (corruptedUserMsg m)))
    ∧ (∀ m, load_user_metadata st = .error (.exception (corruptedUserMsg m)) →
      ∃ m2, fileAt st (userMetadataPath st) = FileState.invalid m2) := by
  refine ⟨fun h => ?_, fun m h => ?_, fun m h => ?_⟩
  · simp [load_user_metadata, readJson, h]
  · simp [load_user_metadata, readJson, h]
  · cases hf : fileAt st (userMetadataPath st) with
    | missing => simp [load_user_metadata, readJson, hf] at h
    | denied =>
      simp [load_user_metadata, readJson, hf] at h
      exact absurd h.symm (corrupted_ne_unexpected m)
    | invalid m2 => exact ⟨m2, rfl⟩
    | valid j => simp [load_user_metadata, readJson, hf] at h

theorem spec_C3_user_loader_errors_witness :
    load_user_metadata userMissingState = .ok emptyDoc
    ∧ load_user_metadata userCorruptState =
        .error (.exception (corruptedUserMsg "Expecting value")) :=
  ⟨(spec_C3_user_loader_errors userMissingState).1 rfl,
   (spec_C3_user_loader_errors userCorruptState).2.1 "Expecting value" rfl⟩

/-- Claim C8 counterexample: with the scratch variable set to the empty
string, `get_user` succeeds and returns the empty string instead of
failing, so the claim that it fails when the variable is unset or empty
is false for the empty case. -/
theorem spec_C8_counterexample :
    (get_user emptyScratchState).isOk = true
    ∧ get_user emptyScratchState = .ok "" := by
  exact ⟨rfl, rfl⟩

/-- Claim C8 (amended): `get_user` derives the username as the last path
segment of the scratch value after stripping trailing separators, and
fails (with the `AttributeError` of calling `rstrip` on `None`) exactly
when the variable is unset; when the variable is set but empty it
returns the empty string. -/
theorem spec_C8_amended (st : State) :
    (st.scratch = none →
      get_user st = .error (.attributeError "NoneType object has no attribute rstrip"))
    ∧ (∀ s, st.scratch = some s →
      get_user st = .ok (basename (rstripSlash s))) := by
  refine ⟨fun h => ?_, fun s h => ?_⟩ <;> simp [get_user, h]

theorem spec_C8_amended_witness :
    get_user noScratchState =
      .error (.attributeError "NoneType object has no attribute rstrip")
    ∧ get_user demoState = .ok (basename (rstripSlash "/scratch/user/alice")) :=
  ⟨(spec_C8_amended noScratchState).1 rfl,
   (spec_C8_amended demoState).2 "/scratch/user/alice" rfl⟩

theorem strAppend_assoc (a b c : String) : (a ++ b) ++ c = a ++ (b ++ c) := by
  apply String.ext
  simp [String.data_append]

theorem virtual_envs_merge (t : String) :
    "/" ++ ("virtual_envs" ++ ("/" ++ t)) = "/virtual_envs/" ++ t := by
  rw [← strAppend_assoc, ← strAppend_assoc]
  exact congrArg (fun x => x ++ t) (by decide)

theorem osJoin_group_path (g last : String) (hg1 : startsWithSlash g = false)
    (hg2 : endsWithSlash g = false) (hg3 : g ≠ "")
    (hl : startsWithSlash last = false) :
    osJoin "/" ["scratch", "group", g, "virtual_envs", last] =
      "/scratch/group/" ++ (g ++ ("/virtual_envs/" ++ last)) := by
  show joinOne (joinOne (joinOne (joinOne (joinOne "/" "scratch") "group") g)
      "virtual_envs") last =
    "/scratch/group/" ++ (g ++ ("/virtual_envs/" ++ last))
  have e2 : joinOne (joinOne "/" "scratch") "group" = "/scratch/group" := by decide
  rw [e2]
  rw [joinOne_plain "/scratch/group" g hg1 (by decide) (by decide)]
  have e3 : "/scratch/group" ++ "/" ++ g = "/scratch/group/" ++ g := rfl
  rw [e3]
  rw [joinOne_plain ("/scratch/group/" ++ g) "virtual_envs" (by decide)
    (strAppend_ne_empty "/scratch/group/" g (by decide))
    (by rw [endsWithSlash_append _ _ hg3]; exact hg2)]
  rw [joinOne_plain ("/scratch/group/" ++ g ++ "/" ++ "virtual_envs") last hl
    (strAppend_ne_empty _ "virtual_envs"
      (strAppend_ne_empty _ "/" (strAppend_ne_empty "/scratch/group/" g (by decide))))
    (by rw [endsWithSlash_append _ _ (show ("virtual_envs" : String) ≠ "" by decide)]; decide)]
  simp only [strAppend_assoc]
  rw [virtual_envs_merge last]

theorem osJoin_user_path (s : String) (hs : s ≠ "") (he : endsWithSlash s = false) :
    osJoin s ["virtual_envs", "metadata.json"] = s ++ "/virtual_envs/metadata.json" := by
  show joinOne (joinOne s "virtual_envs") "metadata.json" =
    s ++ "/virtual_envs/metadata.json"
  rw [joinOne_plain s "virtual_envs" (by decide) hs he]
  rw [joinOne_plain (s ++ "/" ++ "virtual_envs") "metadata.json" (by decide)
    (strAppend_ne_empty _ "virtual_envs" (strAppend_ne_empty s "/" hs))
    (by rw [endsWithSlash_append _ _ (show ("virtual_envs" : String) ≠ "" by decide)]; decide)]
  simp only [strAppend_assoc]
  rw [virtual_envs_merge "metadata.json"]
  exact congrArg (fun t => s ++ t) (by decide)

/-- Claim C9: for every source_type other than user and group, both
`get_environment_path` and `get_metadata_file_path` raise `ValueError`;
for source_type group with a well-formed group name G (nonempty, no
leading or trailing separator) they return paths rooted at
`/scratch/group/G/virtual_envs`. -/
theorem spec_C9_path_resolution :
    (∀ (st : State) (ename stype sname : String),
      stype ≠ "user" → stype ≠ "group" →
      get_environment_path st ename stype sname =
        .error (.valueError ("Invalid source_type: " ++ stype))
      ∧ get_metadata_file_path st stype sname =
        .error (.valueError ("Invalid source_type: " ++ stype)))
    ∧ (∀ (st : State) (ename g : String),
      startsWithSlash g = false → endsWithSlash g = false → g ≠ "" →
      startsWithSlash ename = false →
      get_environment_path st ename "group" g =
        .ok ("/scratch/group/" ++ g ++ "/virtual_envs/" ++ ename)
      ∧ get_metadata_file_path st "group" g =
        .ok ("/scratch/group/" ++ g ++ "/virtual_envs/metadata.json")) := by
  constructor
  · intro st ename stype sname h1 h2
    constructor
    · simp [get_environment_path, h1, h2]
    · simp [get_metadata_file_path, h1, h2]
  · intro st ename g hg1 hg2 hg3 he
    constructor
    · show Except.ok (osJoin "/" ["scratch", "group", g, "virtual_envs", ename]) = _
      rw [osJoin_group_path g ename hg1 hg2 hg3 he]
      simp only [strAppend_assoc]
    · show Except.ok (osJoin "/" ["scratch", "group", g, "virtual_envs", "metadata.json"]) = _
      rw [osJoin_group_path g "metadata.json" hg1 hg2 hg3 (by decide)]
      rw [show ("/virtual_envs/" ++ "metadata.json" : String) =
        "/virtual_envs/metadata.json" by decide]
      simp only [strAppend_assoc]

theorem spec_C9_path_resolution_witness :
    (get_environment_path demoState "e" "other" "g" =
        .error (.valueError ("Invalid source_type: " ++ "other"))
      ∧ get_metadata_file_path demoState "other" "g" =
        .error (.valueError ("Invalid source_type: " ++ "other")))
    ∧ (get_environment_path demoState "envB" "group" "teamX" =
        .ok ("/scratch/group/" ++ "teamX" ++ "/virtual_envs/" ++ "envB")
      ∧ get_metadata_file_path demoState "group" "teamX" =
        .ok ("/scratch/group/" ++ "teamX" ++ "/virtual_envs/metadata.json")) :=
  ⟨spec_C9_path_resolution.1 demoState "e" "other" "g" (by decide) (by decide),
   spec_C9_path_resolution.2 demoState "envB" "teamX" rfl rfl (by decide) rfl⟩

/-- Claim C1: writing a valid document with `update_metadata_file` and
reloading through the matching loader returns an equal document.  For a
user owner this needs the ambient consistency `SCRATCH =
/scratch/user/$USER` (the loader interpolates `USER` where the writer
uses `SCRATCH`); for a group owner it holds unconditionally since writer
and loader resolve the identical path expression. -/
theorem spec_C1_roundtrip (st : State) (d : Json) (_hd : docShape d = true) :
    (∀ (u un : String) (st2 : State),
      st.scratch = some ("/scratch/user/" ++ u) → st.user = some u →
      endsWithSlash ("/scratch/user/" ++ u) = false →
      get_user st = .ok un →
      update_metadata_file st d "user" un = .ok st2 →
      load_user_metadata st2 = .ok d)
    ∧ (∀ (g : String) (st2 : State),
      update_metadata_file st d "group" g = .ok st2 →
      load_group_metadata st2 g = d) := by
  constructor
  · intro u un st2 hsc husr hend hgu hupd
    have hpath : osJoin ("/scratch/user/" ++ u) ["virtual_envs", "metadata.json"] =
        "/scratch/user/" ++ u ++ "/virtual_envs/metadata.json" :=
      osJoin_user_path _ (strAppend_ne_empty "/scratch/user/" u (by decide)) hend
    simp only [update_metadata_file, get_metadata_file_path, hsc] at hupd
    rw [show (("user" == "user") = true) from rfl] at hupd
    simp only [if_pos, Except.bind] at hupd
    have hst2 : st2 = { st with
        fs := (osJoin ("/scratch/user/" ++ u) ["virtual_envs", "metadata.json"],
               FileState.valid d) :: st.fs } := by
      cases hupd
      rw [hsc]
    subst hst2
    have hup : userMetadataPath { st with
        fs := (osJoin ("/scratch/user/" ++ u) ["virtual_envs", "metadata.json"],
               FileState.valid d) :: st.fs } =
        "/scratch/user/" ++ u ++ "/virtual_envs/metadata.json" := by
      simp [userMetadataPath, husr, strAppend_assoc]
    rw [load_user_metadata, hup, readJson]
    have hfa : fileAt { st with
        fs := (osJoin ("/scratch/user/" ++ u) ["virtual_envs", "metadata.json"],
               FileState.valid d) :: st.fs }
        ("/scratch/user/" ++ u ++ "/virtual_envs/metadata.json") =
        FileState.valid d := by
      simp [fileAt, List.find?, hpath]
    rw [hfa]
  · intro g st2 hupd
    have hst2 : st2 = { st with
        fs := (groupMetadataPath g, FileState.valid d) :: st.fs } := by
      simp only [update_metadata_file, get_metadata_file_path] at hupd
      rw [show (("group" == "user") = false) from rfl] at hupd
      simp only [Bool.false_eq_true, if_false,
        show (("group" == "group") = true) from rfl, if_pos, Except.bind] at hupd
      cases hupd
      rfl
    subst hst2
    rw [load_group_metadata, readJson]
    have hfa : fileAt { st with
        fs := (groupMetadataPath g, FileState.valid d) :: st.fs }
        (groupMetadataPath g) = FileState.valid d := by
      simp [fileAt, List.find?]
    rw [hfa]

theorem spec_C1_roundtrip_witness :
    load_user_metadata { demoState with
      fs := ("/scratch/user/alice/virtual_envs/metadata.json", FileState.valid udocA)
          :: demoState.fs } = .ok udocA
    ∧ load_group_metadata { demoState with
      fs := ("/scratch/group/teamX/virtual_envs/metadata.json", FileState.valid udocA)
          :: demoState.fs } "teamX" = udocA :=
  ⟨(spec_C1_roundtrip demoState udocA rfl).1 "alice" "alice" _ rfl rfl rfl rfl rfl,
   (spec_C1_roundtrip demoState udocA rfl).2 "teamX" _ rfl⟩

theorem isObj_exists (e : Json) (h : isObj e = true) : ∃ kvs, e = Json.obj kvs := by
  cases e <;> simp [isObj] at h ⊢

theorem matchName_obj (n : String) (e : Json) (h : matchName n e = true) :
    ∃ kvs, e = Json.obj kvs ∧ pyEqStrOpt (alookup kvs "name") n = true := by
  cases e <;> simp [matchName] at h
  case obj kvs => exact ⟨kvs, rfl, h⟩

theorem lacksName_no_match (n : String) (x : Json) (h : lacksName x = true) :
    matchName n x = false := by
  cases x <;> simp [lacksName] at h ⊢
  case obj kvs => simp [matchName, h, pyEqStrOpt]

theorem matchName_truthy (n : String) (e : Json) (h : matchName n e = true) :
    Json.truthy e = true := by
  obtain ⟨kvs, rfl, hk⟩ := matchName_obj n e h
  cases kvs with
  | nil => simp [alookup, pyEqStrOpt] at hk
  | cons p rest => simp [Json.truthy]

theorem findInEnvs_eq (n : String) (envs : List Json) (h : envs.all isObj = true) :
    findInEnvs n envs = .ok (envs.find? (matchName n)) := by
  induction envs with
  | nil => rfl
  | cons e rest ih =>
    rw [List.all_cons, Bool.and_eq_true] at h
    obtain ⟨kvs, rfl⟩ := isObj_exists e h.1
    rw [show findInEnvs n (Json.obj kvs :: rest) =
      (if pyEqStrOpt (alookup kvs "name") n then Except.ok (some (Json.obj kvs))
       else findInEnvs n rest) from rfl]
    cases hm : pyEqStrOpt (alookup kvs "name") n with
    | true => simp [hm, List.find?_cons, matchName]
    | false => simp [hm, List.find?_cons, matchName, ih h.2]

theorem shape_envkey (j : Json) (h : docShape j = true) :
    ∃ kvs, j = Json.obj kvs
      ∧ pyGetOpt j "environments" = .ok (alookup kvs "environments")
      ∧ truthyOpt (alookup kvs "environments") = !(docEnvs j).isEmpty
      ∧ pyGetD j "environments" (.arr []) = .ok (.arr (docEnvs j))
      ∧ (docEnvs j).all isObj = true := by
  cases j with
  | obj kvs =>
    refine ⟨kvs, rfl, rfl, ?_⟩
    cases he : alookup kvs "environments" with
    | none => simp [truthyOpt, docEnvs, he, pyGetD]
    | some v =>
      simp only [docShape, he] at h
      cases v <;> simp at h
      case arr xs =>
        simp [truthyOpt, Json.truthy, docEnvs, he, pyGetD, h]
        exact h
  | str s => simp [docShape] at h
  | num n2 => simp [docShape] at h
  | bool b => simp [docShape] at h
  | null => simp [docShape] at h
  | arr xs => simp [docShape] at h

theorem findInGroupList_eq (n : String) (L : List (String × Json))
    (h : ∀ p ∈ L, docShape p.2 = true) :
    findInGroupList n L = .ok (firstMatchInGroups n L) := by
  induction L with
  | nil => rfl
  | cons p rest ih =>
    obtain ⟨g, gm⟩ := p
    obtain ⟨kvs, hgm, _, _, hgetd, hall⟩ := shape_envkey gm (h (g, gm) (by simp))
    cases hf : (docEnvs gm).find? (matchName n) with
    | some e =>
      simp [findInGroupList, hgetd, Json.iter, findInEnvs_eq _ _ hall, hf,
        firstMatchInGroups, Bind.bind, Except.bind]
    | none =>
      simp [findInGroupList, hgetd, Json.iter, findInEnvs_eq _ _ hall, hf,
        firstMatchInGroups, Bind.bind, Except.bind,
        ih (fun q hq => h q (List.mem_cons_of_mem _ hq))]

theorem scanRemove_found (n : String) (before : List Json) (e : Json) (after : List Json)
    (hb : ∀ x ∈ before, matchName n x = false) (hbo : before.all isObj = true)
    (he : matchName n e = true) :
    scanRemove n (before ++ e :: after) = .ok (some (e, before ++ after)) := by
  induction before with
  | nil =>
    obtain ⟨kvs, rfl, hk⟩ := matchName_obj n e he
    simp [scanRemove, pyGetOpt, hk, Bind.bind, Except.bind]
  | cons b rest ih =>
    rw [List.all_cons, Bool.and_eq_true] at hbo
    obtain ⟨kvs, rfl⟩ := isObj_exists b hbo.1
    have hmb : pyEqStrOpt (alookup kvs "name") n = false := by
      have := hb (Json.obj kvs) (by simp)
      simpa [matchName] using this
    simp [scanRemove, pyGetOpt, hmb, Bind.bind, Except.bind,
      ih (fun x hx => hb x (List.mem_cons_of_mem _ hx)) hbo.2]

theorem scanRemove_none (n : String) (envs : List Json)
    (h : ∀ x ∈ envs, matchName n x = false) (ho : envs.all isObj = true) :
    scanRemove n envs = .ok none := by
  induction envs with
  | nil => rfl
  | cons e rest ih =>
    rw [List.all_cons, Bool.and_eq_true] at ho
    obtain ⟨kvs, rfl⟩ := isObj_exists e ho.1
    have hme : pyEqStrOpt (alookup kvs "name") n = false := by
      have := h (Json.obj kvs) (by simp)
      simpa [matchName] using this
    simp [scanRemove, pyGetOpt, hme, Bind.bind, Except.bind,
      ih (fun x hx => h x (List.mem_cons_of_mem _ hx)) ho.2]

theorem scanRemove_total (n : String) (envs : List Json) (ho : envs.all isObj = true) :
    ∃ r, scanRemove n envs = .ok r := by
  induction envs with
  | nil => exact ⟨none, rfl⟩
  | cons e rest ih =>
    rw [List.all_cons, Bool.and_eq_true] at ho
    obtain ⟨kvs, rfl⟩ := isObj_exists e ho.1
    obtain ⟨r, hr⟩ := ih ho.2
    cases hme : pyEqStrOpt (alookup kvs "name") n with
    | true =>
      exact ⟨some (Json.obj kvs, rest), by
        simp [scanRemove, pyGetOpt, hme, Bind.bind, Except.bind]⟩
    | false =>
      cases r with
      | none =>
        exact ⟨none, by simp [scanRemove, pyGetOpt, hme, hr, Bind.bind, Except.bind]⟩
      | some p =>
        exact ⟨some (p.1, Json.obj kvs :: p.2), by
          simp [scanRemove, pyGetOpt, hme, hr, Bind.bind, Except.bind]⟩

theorem alookup_cons (p : String × Json) (rest : List (String × Json)) (k : String) :
    alookup (p :: rest) k = if p.1 == k then some p.2 else alookup rest k := by
  cases h : (p.1 == k) with
  | true => simp [alookup, List.find?_cons, h]
  | false => simp [alookup, List.find?_cons, h]

theorem dictSet_cons_true (p : String × Json) (rest : List (String × Json))
    (k : String) (v : Json) (h : (p.1 == k) = true) :
    dictSet (p :: rest) k v = (p.1, v) :: dictSet rest k v := by
  simp [dictSet, h]
  exact fun hc => absurd (by simpa using h) hc

theorem dictSet_cons_false (p : String × Json) (rest : List (String × Json))
    (k : String) (v : Json) (h : (p.1 == k) = false) :
    dictSet (p :: rest) k v = p :: dictSet rest k v := by
  simp [dictSet, h]
  exact fun hc => absurd hc (by simpa using h)

theorem alookup_dictSet_self (kvs : List (String × Json)) (k : String) (v w : Json)
    (h : alookup kvs k = some w) : alookup (dictSet kvs k v) k = some v := by
  induction kvs with
  | nil => simp [alookup] at h
  | cons p rest ih =>
    cases h1 : (p.1 == k) with
    | true =>
      rw [dictSet_cons_true p rest k v h1, alookup_cons]
      simp [h1]
    | false =>
      rw [alookup_cons] at h
      rw [h1] at h
      simp only [Bool.false_eq_true, if_false] at h
      rw [dictSet_cons_false p rest k v h1, alookup_cons, h1]
      simp only [Bool.false_eq_true, if_false]
      exact ih h

theorem alookup_dictSet_ne (kvs : List (String × Json)) (k : String) (v : Json)
    (x : String) (hx : x ≠ k) : alookup (dictSet kvs k v) x = alookup kvs x := by
  induction kvs with
  | nil => rfl
  | cons p rest ih =>
    cases h1 : (p.1 == k) with
    | true =>
      have hp : p.1 = k := by simpa using h1
      have h2 : (p.1 == x) = false := by
        simp only [beq_eq_false_iff_ne, hp]
        exact fun hh => hx hh.symm
      rw [dictSet_cons_true p rest k v h1, alookup_cons, alookup_cons]
      simp [h2, ih]
    | false =>
      rw [dictSet_cons_false p rest k v h1, alookup_cons, alookup_cons]
      cases h2 : (p.1 == x) <;> simp [h2, ih]

theorem lookupJ_eq_alookup (d : List (String × Json)) (g : String) :
    lookupJ d g = alookup d g := rfl

theorem alookup_isSome_of_any (d : List (String × Json)) (k : String)
    (hk : d.any (fun kv => kv.1 == k) = true) : ∃ w, alookup d k = some w := by
  have hfs : (d.find? (fun kv => kv.1 == k)).isSome = true := by
    rw [List.find?_isSome]
    exact List.any_eq_true.mp hk
  rcases Option.isSome_iff_exists.mp hfs with ⟨q, hq⟩
  exact ⟨q.2, by simp [alookup, hq]⟩

theorem dictInsert_eq_dictSet (d : List (String × Json)) (k : String) (v : Json)
    (hk : d.any (fun kv => kv.1 == k) = true) :
    dictInsert d k v = dictSet d k v := by
  rw [dictInsert, if_pos hk]
  rfl

theorem dictInsert_eq_append (d : List (String × Json)) (k : String) (v : Json)
    (hk : ¬ d.any (fun kv => kv.1 == k) = true) :
    dictInsert d k v = d ++ [(k, v)] := by
  rw [dictInsert, if_neg hk]

theorem alookup_dictInsert (d : List (String × Json)) (k : String) (v : Json)
    (x : String) :
    alookup (dictInsert d k v) x = if x == k then some v else alookup d x := by
  by_cases hk : d.any (fun kv => kv.1 == k) = true
  · rw [dictInsert_eq_dictSet d k v hk]
    cases hx : (x == k) with
    | true =>
      have hxk : x = k := by simpa using hx
      subst hxk
      rcases alookup_isSome_of_any d x hk with ⟨w, hw⟩
      simp [alookup_dictSet_self d x v w hw]
    | false =>
      have hxk : x ≠ k := by simpa using hx
      simp [hx, alookup_dictSet_ne d k v x hxk]
  · rw [dictInsert_eq_append d k v hk]
    rw [alookup, List.find?_append]
    cases hx : (x == k) with
    | true =>
      have hxk : x = k := by simpa using hx
      subst hxk
      have hnone : d.find? (fun kv => kv.1 == x) = none := by
        rw [List.find?_eq_none]
        intro p hp hpx
        exact hk (List.any_eq_true.mpr ⟨p, hp, hpx⟩)
      simp [hnone, List.find?, hx]
    | false =>
      have hkx : (k == x) = false := by
        have hxk : x ≠ k := by simpa using hx
        simp only [beq_eq_false_iff_ne]
        exact fun hh => hxk hh.symm
      simp [List.find?, hkx, hx, alookup]

theorem mem_dictInsert (d : List (String × Json)) (k : String) (v : Json)
    (p : String × Json) (h : p ∈ dictInsert d k v) : p ∈ d ∨ p = (k, v) := by
  by_cases hk : d.any (fun kv => kv.1 == k) = true
  · rw [dictInsert_eq_dictSet d k v hk] at h
    rcases List.mem_map.mp h with ⟨q, hq, hfq⟩
    by_cases hqk : (q.1 == k) = true
    · right
      rw [if_pos hqk] at hfq
      have : q.1 = k := by simpa using hqk
      rw [← hfq, this]
    · left
      rw [if_neg hqk] at hfq
      exact hfq ▸ hq
  · rw [dictInsert_eq_append d k v hk] at h
    rcases List.mem_append.mp h with h | h
    · exact .inl h
    · right
      simpa using h

theorem buildGroups_ok (st : State) (gs : List String) (acc : List (String × Json))
    (h : gs.all (fun g => docShape (load_group_metadata st g)) = true) :
    ∃ D, buildGroups st gs acc = .ok D
      ∧ (∀ p ∈ D, p ∈ acc ∨ (p.1 ∈ gs ∧ p.2 = load_group_metadata st p.1))
      ∧ (∀ x, (lookupJ D x).isSome = true ↔
          ((lookupJ acc x).isSome = true
            ∨ (x ∈ gs ∧ docEnvs (load_group_metadata st x) ≠ []))) := by
  induction gs generalizing acc with
  | nil =>
    refine ⟨acc, rfl, fun p hp => .inl hp, fun x => ?_⟩
    simp
  | cons g rest ih =>
    rw [List.all_cons, Bool.and_eq_true] at h
    obtain ⟨kvs, hgm, hget, htr, _, _⟩ := shape_envkey _ h.1
    cases htruthy : truthyOpt (alookup kvs "environments") with
    | true =>
      have hne : docEnvs (load_group_metadata st g) ≠ [] := by
        rw [htr] at htruthy
        simpa using htruthy
      obtain ⟨D, hD, hmem, hlook⟩ := ih (dictInsert acc g (load_group_metadata st g)) h.2
      refine ⟨D, ?_, ?_, ?_⟩
      · rw [buildGroups, hget]
        simp only [htruthy, if_true]
        exact hD
      · intro p hp
        rcases hmem p hp with hp2 | ⟨hp2, hp3⟩
        · rcases mem_dictInsert _ _ _ _ hp2 with hp3 | hp3
          · exact .inl hp3
          · subst hp3
            exact .inr ⟨by simp, rfl⟩
        · exact .inr ⟨List.mem_cons_of_mem _ hp2, hp3⟩
      · intro x
        rw [hlook x, lookupJ_eq_alookup, alookup_dictInsert]
        by_cases hx : x = g
        · subst hx
          simp [hne]
        · have hxb : (x == g) = false := by simpa using hx
          simp [hxb, hx, lookupJ_eq_alookup]
    | false =>
      have hemp : docEnvs (load_group_metadata st g) = [] := by
        rw [htr] at htruthy
        simpa using htruthy
      obtain ⟨D, hD, hmem, hlook⟩ := ih acc h.2
      refine ⟨D, ?_, ?_, ?_⟩
      · rw [buildGroups, hget]
        simp only [htruthy, Bool.false_eq_true, if_false]
        exact hD
      · intro p hp
        rcases hmem p hp with hp2 | ⟨hp2, hp3⟩
        · exact .inl hp2
        · exact .inr ⟨List.mem_cons_of_mem _ hp2, hp3⟩
      · intro x
        rw [hlook x]
        by_cases hx : x = g
        · subst hx
          simp [hemp]
        · simp [hx]

theorem schemaOk_parts (st : State) (h : schemaOk st = true) :
    ∃ u, load_user_metadata st = .ok u ∧ docShape u = true
      ∧ st.groups.all (fun g => docShape (load_group_metadata st g)) = true := by
  rw [schemaOk, Bool.and_eq_true] at h
  obtain ⟨h1, h2⟩ := h
  cases hu : load_user_metadata st with
  | ok u =>
    rw [hu] at h1
    exact ⟨u, rfl, h1, h2⟩
  | error e =>
    rw [hu] at h1
    exact absurd h1 (by simp)

theorem load_all_char (st : State) (u : Json)
    (hu : load_user_metadata st = .ok u)
    (hg : st.groups.all (fun g => docShape (load_group_metadata st g)) = true) :
    ∃ D, load_all_metadata st = .ok ⟨u, D⟩
      ∧ (∀ p ∈ D, p.1 ∈ st.groups ∧ p.2 = load_group_metadata st p.1)
      ∧ (∀ x, (lookupJ D x).isSome = true ↔
          (x ∈ st.groups ∧ docEnvs (load_group_metadata st x) ≠ [])) := by
  obtain ⟨D, hD, hmem, hlook⟩ := buildGroups_ok st st.groups [] hg
  refine ⟨D, ?_, ?_, ?_⟩
  · rw [load_all_metadata, hu]
    simp [Bind.bind, Except.bind, get_user_groups, hD]
  · intro p hp
    rcases hmem p hp with hp2 | hp2
    · simp at hp2
    · exact hp2
  · intro x
    rw [hlook x]
    simp [lookupJ, alookup]

theorem fmg_none (n : String) (L : List (String × Json))
    (h : ∀ p ∈ L, ∀ x ∈ docEnvs p.2, matchName n x = false) :
    firstMatchInGroups n L = none := by
  induction L with
  | nil => rfl
  | cons p rest ih =>
    obtain ⟨g, d⟩ := p
    have hfind : (docEnvs d).find? (matchName n) = none :=
      List.find?_eq_none.mpr (fun x hx => by simp [h (g, d) (by simp) x hx])
    simp [firstMatchInGroups, hfind,
      ih (fun q hq => h q (List.mem_cons_of_mem _ hq))]

theorem fmg_target (n G : String) (e gdoc : Json) (L : List (String × Json))
    (hG : ∀ p ∈ L, p.1 = G → p.2 = gdoc)
    (habs : ∀ p ∈ L, p.1 ≠ G → ∀ x ∈ docEnvs p.2, matchName n x = false)
    (hex : ∃ p ∈ L, p.1 = G)
    (hfound : (docEnvs gdoc).find? (matchName n) = some e) :
    firstMatchInGroups n L = some ("group", G, e) := by
  induction L with
  | nil =>
    rcases hex with ⟨p, hp, _⟩
    simp at hp
  | cons p rest ih =>
    obtain ⟨g, d⟩ := p
    by_cases hg : g = G
    · subst hg
      have hd : d = gdoc := hG (g, d) (by simp) rfl
      subst hd
      simp [firstMatchInGroups, hfound]
    · have hnone : (docEnvs d).find? (matchName n) = none :=
        List.find?_eq_none.mpr (fun x hx => by
          simp [habs (g, d) (by simp) hg x hx])
      simp only [firstMatchInGroups, hnone]
      apply ih
      · exact fun q hq hq1 => hG q (List.mem_cons_of_mem _ hq) hq1
      · exact fun q hq hq1 => habs q (List.mem_cons_of_mem _ hq) hq1
      · rcases hex with ⟨q, hq, hq1⟩
        rcases List.mem_cons.mp hq with rfl | hq2
        · exact absurd hq1 hg
        · exact ⟨q, hq2, hq1⟩

theorem find_matches_reference (st : State) (n : String)
    (hscr : (st.scratch).isSome = true) (hs : schemaOk st = true) :
    find_environment_by_name st n = .ok (findSpec st n) := by
  obtain ⟨u, hu, hus, hgs⟩ := schemaOk_parts st hs
  obtain ⟨D, hall, hmem, _⟩ := load_all_char st u hu hgs
  obtain ⟨ukvs, huk, _, _, hugetd, huall⟩ := shape_envkey u hus
  rcases Option.isSome_iff_exists.mp hscr with ⟨s, hsval⟩
  have hgu : get_user st = .ok (currentUser st) := by
    simp [get_user, hsval, currentUser]
  have hDshape : ∀ p ∈ D, docShape p.2 = true := by
    intro p hp
    obtain ⟨hp1, hp2⟩ := hmem p hp
    rw [hp2]
    exact (List.all_eq_true.mp hgs) _ hp1
  rw [find_environment_by_name, findSpec, hall]
  cases hf : (docEnvs u).find? (matchName n) with
  | some e =>
    simp [Bind.bind, Except.bind, hugetd, Json.iter,
      findInEnvs_eq _ _ huall, hf, hgu]
  | none =>
    simp [Bind.bind, Except.bind, hugetd, Json.iter,
      findInEnvs_eq _ _ huall, hf, findInGroupList_eq n D hDshape]

theorem findSpec_absent (st : State) (n : String) (hs : schemaOk st = true)
    (hu : ∀ x ∈ docEnvs (userDocOf st), matchName n x = false)
    (hg : ∀ g ∈ st.groups, ∀ x ∈ docEnvs (load_group_metadata st g),
      matchName n x = false) :
    findSpec st n = none := by
  obtain ⟨u, hu2, _, hgs⟩ := schemaOk_parts st hs
  obtain ⟨D, hall, hmem, _⟩ := load_all_char st u hu2 hgs
  have huser : userDocOf st = u := by rw [userDocOf, hu2]
  have hfu : (docEnvs u).find? (matchName n) = none :=
    List.find?_eq_none.mpr (fun x hx => by
      rw [← huser] at hx
      simp [hu x hx])
  rw [findSpec, hall]
  simp only [hfu]
  apply fmg_none
  intro p hp x hx
  obtain ⟨hp1, hp2⟩ := hmem p hp
  rw [hp2] at hx
  exact hg p.1 hp1 x hx

theorem find_absent (st : State) (n : String)
    (hscr : (st.scratch).isSome = true) (hs : schemaOk st = true)
    (hu : ∀ x ∈ docEnvs (userDocOf st), matchName n x = false)
    (hg : ∀ g ∈ st.groups, ∀ x ∈ docEnvs (load_group_metadata st g),
      matchName n x = false) :
    find_environment_by_name st n = .ok none := by
  rw [find_matches_reference st n hscr hs, findSpec_absent st n hs hu hg]

/-- Claim C6: `find_environment_by_name` searches the user document first
in document order, then each group of the merged view in its order, and
the first match wins: it coincides with the reference search `findSpec`,
returns the user-owned record as `("user", current username, record)`
even when a group also holds the name, and returns the sentinel when the
name is absent everywhere. -/
theorem spec_C6_find_priority (st : State) (n : String)
    (hscr : (st.scratch).isSome = true) (hs : schemaOk st = true) :
    find_environment_by_name st n = .ok (findSpec st n)
    ∧ (∀ e, (docEnvs (userDocOf st)).find? (matchName n) = some e →
        find_environment_by_name st n = .ok (some ("user", currentUser st, e)))
    ∧ ((∀ x ∈ docEnvs (userDocOf st), matchName n x = false) →
       (∀ g ∈ st.groups, ∀ x ∈ docEnvs (load_group_metadata st g),
         matchName n x = false) →
        find_environment_by_name st n = .ok none) := by
  refine ⟨find_matches_reference st n hscr hs, ?_, ?_⟩
  · intro e he
    rw [find_matches_reference st n hscr hs]
    obtain ⟨u, hu, _, hgs⟩ := schemaOk_parts st hs
    obtain ⟨D, hall, _, _⟩ := load_all_char st u hu hgs
    have huser : userDocOf st = u := by rw [userDocOf, hu]
    rw [huser] at he
    rw [findSpec, hall]
    simp [he]
  · intro hu hg
    rw [find_matches_reference st n hscr hs, findSpec_absent st n hs hu hg]

theorem spec_C6_find_priority_witness :
    find_environment_by_name demoState "envA" = .ok (findSpec demoState "envA")
    ∧ find_environment_by_name demoState "envA" =
        .ok (some ("user", currentUser demoState, envA)) :=
  ⟨(spec_C6_find_priority demoState "envA" rfl rfl).1,
   (spec_C6_find_priority demoState "envA" rfl rfl).2.1 envA rfl⟩

/-- Claim C7: a successfully built merged view always carries the loaded
user document (possibly empty) as its user entry, and its group mapping
has an entry for a group exactly when that group is in the membership
list and its loaded document has at least one environment. -/
theorem spec_C7_merged_view (st : State) (am : AllMetadata)
    (h : load_all_metadata st = .ok am)
    (hg : st.groups.all (fun g => docShape (load_group_metadata st g)) = true) :
    load_user_metadata st = .ok am.user
    ∧ (∀ g, (lookupJ am.groups g).isSome = true ↔
        (g ∈ st.groups ∧ docEnvs (load_group_metadata st g) ≠ [])) := by
  cases hu : load_user_metadata st with
  | error e =>
    rw [load_all_metadata, hu] at h
    simp [Bind.bind, Except.bind] at h
  | ok u =>
    obtain ⟨D, hall, _, hlook⟩ := load_all_char st u hu hg
    rw [hall] at h
    have ham := (Except.ok.inj h).symm
    subst ham
    exact ⟨rfl, hlook⟩

theorem spec_C7_merged_view_witness :
    load_user_metadata demoState = .ok (AllMetadata.mk udocA [("teamX", gdocX)]).user
    ∧ ((lookupJ (AllMetadata.mk udocA [("teamX", gdocX)]).groups "teamY").isSome = true ↔
        ("teamY" ∈ demoState.groups
          ∧ docEnvs (load_group_metadata demoState "teamY") ≠ [])) :=
  ⟨(spec_C7_merged_view demoState ⟨udocA, [("teamX", gdocX)]⟩ rfl rfl).1,
   (spec_C7_merged_view demoState ⟨udocA, [("teamX", gdocX)]⟩ rfl rfl).2 "teamY"⟩

/-- Claim C4: removing a name absent from the user document and from
every group document returns the not-found quadruple with success false
and leaves the state - in particular every metadata file - unchanged. -/
theorem spec_C4_remove_absent (st : State) (n : String)
    (hscr : (st.scratch).isSome = true) (hs : schemaOk st = true)
    (hu : ∀ x ∈ docEnvs (userDocOf st), matchName n x = false)
    (hg : ∀ g ∈ st.groups, ∀ x ∈ docEnvs (load_group_metadata st g),
      matchName n x = false) :
    remove_environment_from_metadata st n = .ok (st, (false, none, none, none)) := by
  have hfind := find_absent st n hscr hs hu hg
  rw [remove_environment_from_metadata, hfind]
  rfl

theorem spec_C4_remove_absent_witness :
    remove_environment_from_metadata demoState "nope" =
      .ok (demoState, (false, none, none, none)) :=
  spec_C4_remove_absent demoState "nope" rfl rfl (by decide) (by decide)

theorem find_group_only (st : State) (n G : String) (e : Json)
    (hscr : (st.scratch).isSome = true) (hs : schemaOk st = true)
    (hu : ∀ x ∈ docEnvs (userDocOf st), matchName n x = false)
    (hGmem : G ∈ st.groups)
    (hfound : (docEnvs (load_group_metadata st G)).find? (matchName n) = some e)
    (hg : ∀ g ∈ st.groups, g ≠ G → ∀ x ∈ docEnvs (load_group_metadata st g),
      matchName n x = false) :
    find_environment_by_name st n = .ok (some ("group", G, e)) := by
  rw [find_matches_reference st n hscr hs]
  obtain ⟨u, hu2, _, hgs⟩ := schemaOk_parts st hs
  obtain ⟨D, hall, hmem, hlook⟩ := load_all_char st u hu2 hgs
  have huser : userDocOf st = u := by rw [userDocOf, hu2]
  have hfu : (docEnvs u).find? (matchName n) = none :=
    List.find?_eq_none.mpr (fun x hx => by
      rw [← huser] at hx
      simp [hu x hx])
  rw [findSpec, hall]
  simp only [hfu]
  have hne : docEnvs (load_group_metadata st G) ≠ [] := by
    intro hc
    rw [hc] at hfound
    simp at hfound
  have hex : ∃ p ∈ D, p.1 = G := by
    have hsome := (hlook G).mpr ⟨hGmem, hne⟩
    rcases Option.isSome_iff_exists.mp hsome with ⟨w, hw⟩
    rw [lookupJ] at hw
    rcases Option.map_eq_some'.mp hw with ⟨q, hq1, _⟩
    have hqmem := List.mem_of_find?_eq_some hq1
    have hqG : q.1 = G := by
      have := List.find?_some hq1
      simpa using this
    exact ⟨q, hqmem, hqG⟩
  have hfmg := fmg_target n G e (load_group_metadata st G) D
    (fun p hp hpG => by rw [(hmem p hp).2, hpG])
    (fun p hp hpG x hx => by
      rw [(hmem p hp).2] at hx
      exact hg p.1 (hmem p hp).1 hpG x hx)
    hex hfound
  rw [hfmg]

/-- Claim C5: removing a name present only in the document of group G
succeeds with source_type group, source_name G and the removed record,
and reloading the document of G afterwards shows that record absent
while all other records keep their original order. -/
theorem spec_C5_remove_group (st : State) (n G s : String)
    (kvs : List (String × Json)) (l before after : List Json) (e : Json)
    (hscr : st.scratch = some s)
    (hs : schemaOk st = true)
    (hGmem : G ∈ st.groups)
    (hdoc : load_group_metadata st G = .obj kvs)
    (henv : alookup kvs "environments" = some (.arr l))
    (hsplit : l = before ++ e :: after)
    (hbefore : ∀ x ∈ before, matchName n x = false)
    (hmatch : matchName n e = true)
    (hafter : ∀ x ∈ after, matchName n x = false)
    (huser : ∀ x ∈ docEnvs (userDocOf st), matchName n x = false)
    (hothers : ∀ g ∈ st.groups, g ≠ G →
      ∀ x ∈ docEnvs (load_group_metadata st g), matchName n x = false) :
    ∃ st2, remove_environment_from_metadata st n =
        .ok (st2, (true, some "group", some G, some e))
      ∧ docEnvs (load_group_metadata st2 G) = before ++ after
      ∧ (∀ x ∈ docEnvs (load_group_metadata st2 G), matchName n x = false) := by
  have hde : docEnvs (load_group_metadata st G) = l := by
    rw [hdoc]
    simp [docEnvs, henv]
  have hlobj : l.all isObj = true := by
    obtain ⟨u2, _, _, hgs⟩ := schemaOk_parts st hs
    have hshape := (List.all_eq_true.mp hgs) G hGmem
    obtain ⟨kvs2, _, _, _, _, hall2⟩ := shape_envkey _ hshape
    rw [hde] at hall2
    exact hall2
  have hfind : l.find? (matchName n) = some e := by
    rw [hsplit, List.find?_append]
    have h1 : before.find? (matchName n) = none :=
      List.find?_eq_none.mpr (fun x hx => by simp [hbefore x hx])
    rw [h1]
    simp [List.find?_cons, hmatch]
  have hgo := find_group_only st n G e (by rw [hscr]; rfl) hs huser hGmem
    (by rw [hde]; exact hfind) hothers
  have hscan : scanRemove n l = .ok (some (e, before ++ after)) := by
    rw [hsplit]
    exact scanRemove_found n before e after hbefore
      (by
        rw [hsplit, List.all_append, Bool.and_eq_true] at hlobj
        exact hlobj.1)
      hmatch
  have htruthy : Json.truthy e = true := matchName_truthy n e hmatch
  have hreload : docEnvs (load_group_metadata { st with
      fs := (groupMetadataPath G, FileState.valid (Json.obj (dictSet kvs "environments"
        (.arr (before ++ after))))) :: st.fs } G) = before ++ after := by
    rw [load_group_metadata, readJson]
    have hfa : fileAt { st with
        fs := (groupMetadataPath G, FileState.valid (Json.obj (dictSet kvs "environments"
          (.arr (before ++ after))))) :: st.fs } (groupMetadataPath G) =
        FileState.valid (Json.obj (dictSet kvs "environments"
          (.arr (before ++ after)))) := by
      simp [fileAt, List.find?]
    rw [hfa]
    simp [docEnvs,
      alookup_dictSet_self kvs "environments" (.arr (before ++ after)) (.arr l) henv]
  refine ⟨_, ?_, hreload, ?_⟩
  · rw [remove_environment_from_metadata, hgo]
    have hsu : (("group" : String) == "user") = false := rfl
    have hsg : (("group" : String) == "group") = true := rfl
    simp only [Bind.bind, Except.bind, pure, Except.pure, hsu, hsg,
      Bool.false_eq_true, if_false, if_true, hdoc, pyGetD, henv, Option.getD_some,
      Json.iter, hscan, htruthy, objSetKey, update_metadata_file,
      get_metadata_file_path, groupMetadataPath]
  · rw [hreload]
    intro x hx
    rcases List.mem_append.mp hx with hx | hx
    · exact hbefore x hx
    · exact hafter x hx

theorem spec_C5_remove_group_witness :
    ∃ st2, remove_environment_from_metadata demoState "envB" =
        .ok (st2, (true, some "group", some "teamX", some envB))
      ∧ docEnvs (load_group_metadata st2 "teamX") = [envC] ++ [envDup]
      ∧ (∀ x ∈ docEnvs (load_group_metadata st2 "teamX"),
          matchName "envB" x = false) :=
  spec_C5_remove_group demoState "envB" "teamX" "/scratch/user/alice"
    [("environments", .arr [envC, envB, envDup])] [envC, envB, envDup]
    [envC] [envDup] envB rfl rfl (by decide) rfl rfl rfl (by decide) rfl
    (by decide) (by decide) (by decide)

theorem fmg_mem (n : String) (L : List (String × Json))
    (r : String × String × Json) (h : firstMatchInGroups n L = some r) :
    ∃ g d e, (g, d) ∈ L ∧ r = ("group", g, e) := by
  induction L with
  | nil => simp [firstMatchInGroups] at h
  | cons p rest ih =>
    obtain ⟨g, d⟩ := p
    cases hf : (docEnvs d).find? (matchName n) with
    | some e =>
      simp only [firstMatchInGroups, hf] at h
      exact ⟨g, d, e, by simp, (Option.some.inj h).symm⟩
    | none =>
      simp only [firstMatchInGroups, hf] at h
      rcases ih h with ⟨g2, d2, e2, hmem2, hr⟩
      exact ⟨g2, d2, e2, List.mem_cons_of_mem _ hmem2, hr⟩

theorem findSpec_cases (st : State) (n : String) (hs : schemaOk st = true)
    (r : String × String × Json) (h : findSpec st n = some r) :
    (∃ e, r = ("user", currentUser st, e))
    ∨ (∃ G e, r = ("group", G, e) ∧ G ∈ st.groups) := by
  obtain ⟨u, hu, _, hgs⟩ := schemaOk_parts st hs
  obtain ⟨D, hall, hmem, _⟩ := load_all_char st u hu hgs
  rw [findSpec, hall] at h
  cases hf : (docEnvs u).find? (matchName n) with
  | some e =>
    simp only [hf] at h
    exact .inl ⟨e, (Option.some.inj h).symm⟩
  | none =>
    simp only [hf] at h
    rcases fmg_mem n D r h with ⟨g, d, e, hmem2, hr⟩
    exact .inr ⟨g, e, hr, (hmem (g, d) hmem2).1⟩

/-- Claim C10: on schema-shaped states - where a loaded document may
lack the environments key (read as an empty list) and a record may lack
the name field (never matched) - both `find_environment_by_name` and
`remove_environment_from_metadata` return without raising, and when
every record lacks the name field the lookup returns the sentinel. -/
theorem spec_C10_malformed_total (st : State) (n : String)
    (hscr : (st.scratch).isSome = true) (hs : schemaOk st = true) :
    (find_environment_by_name st n).isOk = true
    ∧ (remove_environment_from_metadata st n).isOk = true
    ∧ (recordsLackName st = true → find_environment_by_name st n = .ok none) := by
  have href := find_matches_reference st n hscr hs
  obtain ⟨u, hu, hus, hgs⟩ := schemaOk_parts st hs
  rcases Option.isSome_iff_exists.mp hscr with ⟨s, hsv⟩
  refine ⟨by rw [href]; rfl, ?_, ?_⟩
  · cases hfs : findSpec st n with
    | none =>
      rw [remove_environment_from_metadata, href, hfs]
      rfl
    | some r =>
      rcases findSpec_cases st n hs r hfs with ⟨e, hr⟩ | ⟨G, e, hr, hG⟩
      · subst hr
        obtain ⟨ukvs, _, _, _, hugetd, huall⟩ := shape_envkey u hus
        obtain ⟨rres, hscan⟩ := scanRemove_total n (docEnvs u) huall
        have hsuu : (("user" : String) == "user") = true := rfl
        rw [remove_environment_from_metadata, href, hfs]
        cases rres with
        | none =>
          simp only [Bind.bind, Except.bind, hsuu, if_true, hu, hugetd,
            Json.iter, hscan]
          rfl
        | some pr =>
          cases htr : Json.truthy pr.1 with
          | true =>
            simp only [Bind.bind, Except.bind, hsuu, if_true, hu, hugetd,
              Json.iter, hscan, htr, update_metadata_file,
              get_metadata_file_path, hsv]
            rfl
          | false =>
            simp only [Bind.bind, Except.bind, hsuu, if_true, hu, hugetd,
              Json.iter, hscan, htr, Bool.false_eq_true, if_false]
            rfl
      · subst hr
        have hgshape : docShape (load_group_metadata st G) = true :=
          (List.all_eq_true.mp hgs) G hG
        obtain ⟨gkvs, _, _, _, hggetd, hgall⟩ := shape_envkey _ hgshape
        obtain ⟨rres, hscan⟩ :=
          scanRemove_total n (docEnvs (load_group_metadata st G)) hgall
        have hsgu : (("group" : String) == "user") = false := rfl
        have hsgg : (("group" : String) == "group") = true := rfl
        rw [remove_environment_from_metadata, href, hfs]
        cases rres with
        | none =>
          simp only [Bind.bind, Except.bind, hsgu, Bool.false_eq_true, if_false,
            pure, Except.pure, hggetd, Json.iter, hscan]
          rfl
        | some pr =>
          cases htr : Json.truthy pr.1 with
          | true =>
            simp only [Bind.bind, Except.bind, hsgu, Bool.false_eq_true, if_false,
              pure, Except.pure, hggetd, Json.iter, hscan, htr, if_true,
              update_metadata_file, get_metadata_file_path, hsgg]
            rfl
          | false =>
            simp only [Bind.bind, Except.bind, hsgu, Bool.false_eq_true, if_false,
              pure, Except.pure, hggetd, Json.iter, hscan, htr]
            rfl
  · intro hln
    rw [recordsLackName, Bool.and_eq_true] at hln
    refine find_absent st n hscr hs ?_ ?_
    · exact fun x hx =>
        lacksName_no_match n x ((List.all_eq_true.mp hln.1) x hx)
    · intro g hg x hx
      have := (List.all_eq_true.mp hln.2) g hg
      exact lacksName_no_match n x ((List.all_eq_true.mp this) x hx)

theorem spec_C10_malformed_total_witness :
    (find_environment_by_name malformedState "envA").isOk = true
    ∧ (remove_environment_from_metadata malformedState "envA").isOk = true
    ∧ find_environment_by_name malformedState "envA" = .ok none :=
  ⟨(spec_C10_malformed_total malformedState "envA" rfl rfl).1,
   (spec_C10_malformed_total malformedState "envA" rfl rfl).2.1,
   (spec_C10_malformed_total malformedState "envA" rfl rfl).2.2 rfl⟩
